import Mathlib

/-!
Verification of the transaction-invocation workflow (`src/invoke.js`) of the
hyperledger-fabric-client-utils repository.

The JavaScript source is shallowly embedded as executable Lean definitions:

* the peer registry (`peersMap` / `uniquePeers`, invoke.js lines 21-29) is
  embedded together with the JavaScript object-key semantics it relies on
  (`Object.values` lists integer-like own keys in ascending numeric order
  before the remaining string keys in insertion order; assigning an existing
  key overwrites its value in place);
* the endorsement evaluator (lines 63-91 and 173-175) is embedded as
  `evalProposal`, parameterised by the external collaborators `JSON.parse`
  and `parseErrorMessage`;
* the commit-event listener sub-workflow (lines 120-165) is embedded as a
  state machine `LState`/`step` whose events are the commit callback, the
  event-hub error callback and the deadline-timer firing;
* the outcome reconciler (lines 177-204) is embedded as `reconcile`, and the
  `Promise.all` + `catch` tail as `invokeAfterProposal` (for the case in
  which the ordering-submission promise resolves).

Property assignment on the plain object `peersMap` is modelled including its
two exotic cases: the key `__proto__` hits the inherited prototype accessor
and creates no own property (so such a peer never reaches `Object.values`),
and array-index keys are enumerated first in ascending numeric order.  All
other inherited properties of `Object.prototype` are writable data
properties, for which assignment creates an ordinary own property.
-/

namespace FabricInvoke

/-- A peer descriptor as consumed by `invoke` (fields read by invoke.js:
`peer.cn`, `peer.url`, `peer.broadcastUrl`, `peer.adminUserId`). -/
structure Peer where
  cn : String
  url : String
  broadcastUrl : String
  adminUserId : String
deriving DecidableEq, Repr

/-! ### Peer registry (invoke.js lines 21-29)

`peersMap` is a plain JavaScript object: `peersMap[peer.cn] = peer` for each
peer in order, then `uniquePeers = Object.values(peersMap)`.  Property
assignment keeps the creation position of the key and overwrites the value;
`Object.values` enumerates array-index keys (canonical base-10 integers below
2^32 - 1) in ascending numeric order first, then the other keys in creation
order. -/

/-- Digit test for a list of characters. -/
def charsAreDigits (l : List Char) : Bool :=
  l.all (fun c => decide ('0' ≤ c) && decide (c ≤ '9'))

/-- Base-10 value of a digit string. -/
def charsToNat (l : List Char) : Nat :=
  l.foldl (fun acc c => acc * 10 + (c.toNat - 48)) 0

/-- JavaScript array-index test: a string property key is an array index
iff it is the canonical base-10 form of an integer `n` with `n < 2^32 - 1`
(the ECMAScript `Object.values` order lists such keys first, numerically). -/
def arrayIndexKey (s : String) : Option Nat :=
  let cs := s.data
  if !cs.isEmpty && charsAreDigits cs && (cs == ['0'] || cs.head? != some '0') then
    let n := charsToNat cs
    if n < 4294967295 then some n else none
  else none

/-- Name of the inherited prototype accessor of `Object.prototype`:
assignment to this key on a plain object invokes the accessor (replacing the
prototype, since the assigned peer is an object) and creates no own
property, so `Object.values` never lists it. -/
def protoKey : String := "__proto__"

/-- Assignment `peersMap[peer.cn] = peer`: the key `__proto__` hits the
inherited prototype accessor and creates no own property; any other key is
overwritten in place if it exists, otherwise appended as a new own
property. -/
def insertPeer (assoc : List (String × Peer)) (p : Peer) : List (String × Peer) :=
  if p.cn == protoKey then assoc
  else if assoc.any (fun kv => kv.1 == p.cn) then
    assoc.map (fun kv => if kv.1 == p.cn then (kv.1, p) else kv)
  else assoc ++ [(p.cn, p)]

/-- The own properties of `peersMap` after the `forEach` loop, in creation
order, with last-assignment-wins values. -/
def peersAssoc (peers : List Peer) : List (String × Peer) :=
  peers.foldl insertPeer []

/-- Numeric value used to order array-index keys. -/
def keyNum (kv : String × Peer) : Nat :=
  (arrayIndexKey kv.1).getD 0

/-- Insert into a list sorted by `keyNum`. -/
def insertByNum (kv : String × Peer) : List (String × Peer) → List (String × Peer)
  | [] => [kv]
  | x :: xs => if keyNum kv ≤ keyNum x then kv :: x :: xs else x :: insertByNum kv xs

/-- Sort by `keyNum` (insertion sort; the keys involved are distinct). -/
def sortByNum : List (String × Peer) → List (String × Peer)
  | [] => []
  | x :: xs => insertByNum x (sortByNum xs)

/-- Model of `Object.values`: array-index keys in ascending numeric order, then the
remaining keys in creation order. -/
def objectValues (assoc : List (String × Peer)) : List Peer :=
  let idx := assoc.filter (fun kv => (arrayIndexKey kv.1).isSome)
  let rest := assoc.filter (fun kv => !(arrayIndexKey kv.1).isSome)
  (sortByNum idx ++ rest).map Prod.snd

/-- Definition `const uniquePeers = Object.values(peersMap)` (invoke.js line 25). -/
def uniquePeers (peers : List Peer) : List Peer :=
  objectValues (peersAssoc peers)

/-- First-occurrence deduplication of a key list, used to express the
"identities appear in first-seen order" property. -/
def dedupFirstAux (seen : List String) : List String → List String
  | [] => []
  | c :: cs => if c ∈ seen then dedupFirstAux seen cs else c :: dedupFirstAux (c :: seen) cs

/-- Keys of a list with duplicates removed, keeping first occurrences in
their original order. -/
def dedupFirst (l : List String) : List String :=
  dedupFirstAux [] l

/-- Outcome of the synchronous prefix of `invoke` (invoke.js lines 21-31):
either the early rejection with the no-endorser-peers error,
issued before the promise chain that performs any network operation, or
entry into that chain with the deduplicated peer list. -/
inductive InvokeStart where
  | rejected (msg : String)
  | proceed (ups : List Peer)
deriving DecidableEq, Repr

/-- Lines 16 and 21-31 of invoke.js: `peers = []` (absent) and `(peers || [])`
(null) both yield the empty list; reject when `uniquePeers.length === 0`. -/
def invokeStart (po : Option (List Peer)) : InvokeStart :=
  let ups := uniquePeers (po.getD [])
  if ups.length = 0 then InvokeStart.rejected "No endorser peers provided."
  else InvokeStart.proceed ups

/-- The network capabilities consumed before the first suspension point: the
early-rejected branch runs none; the proceeding branch immediately enters
the chain whose first step is `createFabricClient` (invoke.js line 37). -/
def startNetworkCalls : InvokeStart → List String
  | InvokeStart.rejected _ => []
  | InvokeStart.proceed _ => ["createFabricClient"]

/-! ### Payload decoding and the endorsement evaluator (invoke.js 63-91, 173-175) -/

/-- Model of the structured values produced by the external `JSON.parse`
collaborator (numbers are modelled as integers; no claim depends on float
payloads). -/
inductive Json where
  | null
  | bool (b : Bool)
  | num (n : Int)
  | str (s : String)
  | arr (elems : List Json)
  | obj (fields : List (String × Json))

/-- JavaScript truthiness of a parsed value. -/
def Json.truthy : Json → Bool
  | Json.null => false
  | Json.bool b => b
  | Json.num n => n != 0
  | Json.str s => s != ""
  | Json.arr _ => true
  | Json.obj _ => true

mutual

/-- JavaScript `String(x)` on a parsed value (used by `new Error(x)`):
arrays join their elements with commas, plain objects stringify to
"[object Object]". -/
def Json.toJSString : Json → String
  | Json.null => "null"
  | Json.bool b => cond b "true" "false"
  | Json.num n => toString n
  | Json.str s => s
  | Json.arr xs => String.intercalate "," (Json.elemStrings xs)
  | Json.obj _ => "[object Object]"

/-- Element stringification inside `Array.prototype.toString`: `null`
contributes the empty string. -/
def Json.elemStrings : List Json → List String
  | [] => []
  | Json.null :: js => "" :: Json.elemStrings js
  | j :: js => Json.toJSString j :: Json.elemStrings js

end

/-- Value of `transactionProposalResponse`: `JSON.parse(payload)` when it parses,
otherwise the raw payload text (invoke.js lines 69-75). -/
abbrev Decoded := Json ⊕ String

/-- Lines 70-75 of invoke.js: try the structured parse, fall back to raw text. -/
def decodePayload (parse : String → Option Json) (payload : String) : Decoded :=
  match parse payload with
  | some j => Sum.inl j
  | none => Sum.inr payload

/-- JavaScript truthiness of `transactionProposalResponse`. -/
def truthyDecoded : Decoded → Bool
  | Sum.inl j => j.truthy
  | Sum.inr s => s != ""

/-- The message of `new Error(transactionProposalResponse)`. -/
def decodedToMessage : Decoded → String
  | Sum.inl j => j.toJSString
  | Sum.inr s => s

/-- Field `proposalResponses[0].response` as read by the evaluator. -/
structure ResponseObj where
  status : Int
  payload : String
deriving DecidableEq, Repr

/-- The first element of `proposalResponses`: it may carry a structured
`response` object and/or a diagnostic `message`. -/
structure PropResponse where
  response : Option ResponseObj
  message : Option String
deriving DecidableEq, Repr

/-- The generic failure message of invoke.js lines 174-175. -/
def genericProposalFailure : String :=
  "Failed to send Proposal or receive valid response. Response null or status is not 200. exiting..."

/-- Result of the endorsement evaluation: proceed to commit orchestration
with the decoded payload, reject with a thrown error message, or the
JavaScript `TypeError` raised by reading `proposalResponses[0].response`
on an empty response array. -/
inductive ProposalEval where
  | proceed (decoded : Decoded)
  | reject (errMessage : String)
  | jsTypeError

/-- The endorsement evaluator (invoke.js lines 63-91 and the `throw` at
lines 173-175), parameterised by the external collaborators `JSON.parse`
(`parse`, partial) and `parseErrorMessage` (`pem`, returning the thrown
message of the thrown error). -/
def evalProposal (parse : String → Option Json) (pem : String → String)
    (prs : Option (List PropResponse)) : ProposalEval :=
  match prs with
  | none => ProposalEval.reject genericProposalFailure
  | some [] => ProposalEval.jsTypeError
  | some (r0 :: _) =>
    match r0.response with
    | some resp =>
      let tpr := decodePayload parse resp.payload
      if resp.status = 200 then ProposalEval.proceed tpr
      else if truthyDecoded tpr then ProposalEval.reject (decodedToMessage tpr)
      else ProposalEval.reject genericProposalFailure
    | none =>
      match r0.message with
      | some m => ProposalEval.reject (pem m)
      | none => ProposalEval.reject genericProposalFailure

/-- Rendering of the reason-preference order stated by claim C4, in the words
of the claim: "diagnostic-parsed reason when the first response carries a
message, else the decoded candidate payload, else a generic failure
message".  Kept for comparison against `evalProposal`. -/
def claimC4Reason (parse : String → Option Json) (pem : String → String)
    (prs : Option (List PropResponse)) : String :=
  match prs with
  | some (r0 :: _) =>
    match r0.message with
    | some m => pem m
    | none =>
      match r0.response with
      | some resp => decodedToMessage (decodePayload parse resp.payload)
      | none => genericProposalFailure
  | _ => genericProposalFailure

/-! ### Commit-event listener sub-workflow (invoke.js lines 120-165)

The listener is embedded as a state machine.  Its state records the resource
bookkeeping performed by the code: whether `setTimeout` was ever called and whether
the timer is still armed (`clearTimeout` / firing disarm it), whether
`eventHub.connect()` / `eventHub.disconnect()` leave the connection open,
whether `registerTxEvent` / `unregisterTxEvent` leave the transaction
listener registered, the `retries` counter, and the settlement of
`txPromise` (a promise settles at most once; later `resolve`/`reject`
calls are no-ops, while their surrounding side effects still run).

Events are environment-driven: the commit callback of `registerTxEvent`
(carrying the validation code), the error callback (a transport error),
and the deadline timer firing.  The wall-clock duration `maxTimeout` is
abstracted into the `timerFire` event itself. -/

/-- Constant `MAX_RETRIES_EVENT_HUB` (invoke.js line 10). -/
def MAX_RETRIES_EVENT_HUB : Nat := 5

/-- The `returnStatus` object `{event_status: code, tx_id: transactionIdString}`
(invoke.js line 142). -/
structure TxEventStatus where
  event_status : String
  tx_id : String
deriving DecidableEq, Repr

/-- Settlement of `txPromise`. -/
inductive LResult where
  | resolved (v : TxEventStatus)
  | rejected (msg : String)
deriving DecidableEq, Repr

/-- State of the listener sub-workflow. -/
structure LState where
  txId : String
  timerStarted : Bool
  timerArmed : Bool
  connectCalled : Bool
  connected : Bool
  registerCalled : Bool
  registered : Bool
  retries : Nat
  settled : Option LResult
deriving DecidableEq, Repr

/-- Settle the promise unless it is already settled. -/
def settleWith (s : LState) (r : LResult) : LState :=
  match s.settled with
  | some _ => s
  | none => { s with settled := some r }

/-- State after `setUserContext` succeeded: `setTimeout` armed the deadline
timer, then `startListening()` called `eventHub.connect()` and
`registerTxEvent` (invoke.js lines 127-134, 162). -/
def initListening (txid : String) : LState :=
  { txId := txid
    timerStarted := true, timerArmed := true
    connectCalled := true, connected := true
    registerCalled := true, registered := true
    retries := 0, settled := none }

/-- Environment events delivered to the listener. -/
inductive LEvent where
  | commit (code : String)
  | hubErr (err : String)
  | timerFire
deriving DecidableEq, Repr

/-- The message of `new Error(returnStatus)` (invoke.js line 145):
`returnStatus` is a plain object, and the `Error` constructor stringifies
a non-undefined message argument, yielding "[object Object]". -/
def jsObjectErrorMessage : String := "[object Object]"

/-- One transition of the listener, translated from invoke.js lines 127-160.

* commit callback (lines 134-150): `clearTimeout(handle)`,
  `unregisterTxEvent`, `eventHub.disconnect()`; then reject with
  `new Error(returnStatus)` when the code differs from "VALID", else resolve
  with `returnStatus`.
* error callback (lines 151-160): when `retries >= MAX_RETRIES_EVENT_HUB`,
  re-arm via `setTimeout(startListening, 0)` (connect and register again);
  otherwise reject with the eventhub error; in both branches `retries += 1`.
  Note the bound check as written retries only from the 6th error on.
* timer firing (lines 127-130): `eventHub.disconnect()` then reject with
  the timeout error; the timer is no longer armed afterwards.

Callbacks can only fire while registered; the timer only while armed. -/
def step (s : LState) (e : LEvent) : LState :=
  match e with
  | LEvent.commit code =>
    if s.registered then
      let s1 : LState := { s with timerArmed := false, registered := false, connected := false }
      if code != "VALID" then
        settleWith s1 (LResult.rejected jsObjectErrorMessage)
      else
        settleWith s1 (LResult.resolved { event_status := code, tx_id := s.txId })
    else s
  | LEvent.hubErr err =>
    if s.registered then
      if s.retries ≥ MAX_RETRIES_EVENT_HUB then
        { s with connectCalled := true, connected := true
                 registerCalled := true, registered := true
                 retries := s.retries + 1 }
      else
        { settleWith s (LResult.rejected ("There was a problem with the eventhub: " ++ err ++ " "))
          with retries := s.retries + 1 }
    else s
  | LEvent.timerFire =>
    if s.timerArmed then
      settleWith { s with timerArmed := false, connected := false }
        (LResult.rejected "Transaction did not complete within the allowed time")
    else s

/-- Start of the listener sub-workflow (invoke.js lines 125-164): if the
`setUserContext` switch to the admin identity of the listening peer fails, the
`catch` on line 164 rejects `txPromise` with that error before the timer is
started, the hub connected, or the transaction event registered. -/
def listenerStart (suc : Except String Unit) (txid : String) : LState :=
  match suc with
  | Except.ok _ => initListening txid
  | Except.error e =>
    { txId := txid
      timerStarted := false, timerArmed := false
      connectCalled := false, connected := false
      registerCalled := false, registered := false
      retries := 0, settled := some (LResult.rejected e) }

/-! ### Outcome reconciler (invoke.js lines 177-204) -/

/-- The resolved value of `channel.sendTransaction` as read by the
reconciler (`results[0].status`). -/
structure OrdererResult where
  status : String
deriving DecidableEq, Repr

/-- Line 188 of invoke.js interpolates `results.status` where `results` is the
`Promise.all` array, so the template always renders "undefined". -/
def orderFailureMsg : String :=
  "Failed to order the transaction.Error code: undefined "

/-- Line 196 of invoke.js. -/
def commitFailureMsg (code : String) : String :=
  "Transaction failed to be committed to the ledger due to: " ++ code ++ "."

/-- The reconciliation then-block (invoke.js lines 177-204): both legs must
succeed; otherwise reject with the collected per-leg reasons joined by
newlines.  On success resolve with `transactionProposalResponse`. -/
def reconcile (tpr : Decoded) (r0 : OrdererResult) (r1 : TxEventStatus) :
    Except String Decoded :=
  let transactionSucceeded := r0.status == "SUCCESS"
  let commitSucceeded := r1.event_status == "VALID"
  let errors :=
    (if transactionSucceeded then [] else [orderFailureMsg])
      ++ (if commitSucceeded then [] else [commitFailureMsg r1.event_status])
  if transactionSucceeded && commitSucceeded then Except.ok tpr
  else Except.error (String.intercalate "\n" errors)

/-- The tail of `invoke` after a good proposal, for the case in which the
ordering-submission promise resolves with `r0`: `Promise.all` rejects as
soon as `txPromise` rejects, and the final `catch` (invoke.js lines
205-208) rejects the invocation with that same error; when both legs
resolve, the reconciler runs. -/
def invokeAfterProposal (tpr : Decoded) (r0 : OrdererResult) (tx : LResult) :
    Except String Decoded :=
  match tx with
  | LResult.rejected e => Except.error e
  | LResult.resolved r1 => reconcile tpr r0 r1

/-- Whether `msg` mentions `code` as a contiguous substring; used to state
that a rejection reason references a validation code. -/
def leadChars : List Char → List Char → Bool
  | [], _ => true
  | _ :: _, [] => false
  | a :: as, b :: bs => a == b && leadChars as bs

/-- Substring occurrence on character lists. -/
def subChars (needle : List Char) : List Char → Bool
  | [] => needle.isEmpty
  | b :: bs => leadChars needle (b :: bs) || subChars needle bs

/-- Predicate `mentionsCode msg code`: the reason string `msg` references `code`. -/
def mentionsCode (msg code : String) : Bool :=
  subChars code.data msg.data

/-! ### Concrete inputs used by counterexamples and witnesses -/

/-- Lookup of an own property of `peersMap` (used to state the
last-assignment-wins property). -/
def lookupKey (k : String) : List (String × Peer) → Option Peer
  | [] => none
  | kv :: rest => if kv.1 == k then some kv.2 else lookupKey k rest

/-- A parse function that never succeeds (a payload that is not JSON). -/
def jsonNever : String → Option Json := fun _ => none

/-- A sample diagnostic parser standing in for `parseErrorMessage`. -/
def pemDemo : String → String := fun m => String.append "Error: " m

/-- A first proposal response carrying both a non-200 `response` object and a
diagnostic `message`. -/
def cexFirstResponse : PropResponse :=
  { response := some { status := 500, payload := "bad endorsement" }
    message := some "status: 500, message: bad endorsement" }

/-- A peer whose identity is the array-index string "2". -/
def peerNum2 : Peer := ⟨"2", "grpc-url-2", "grpc-broadcast-2", "admin2"⟩

/-- A peer whose identity is the array-index string "1". -/
def peerNum1 : Peer := ⟨"1", "grpc-url-1", "grpc-broadcast-1", "admin1"⟩

/-- First of two peers sharing the identity "peer0". -/
def peerDupA : Peer := ⟨"peer0", "grpc-url-a", "grpc-broadcast-a", "adminA"⟩

/-- Second of two peers sharing the identity "peer0". -/
def peerDupB : Peer := ⟨"peer0", "grpc-url-b", "grpc-broadcast-b", "adminB"⟩

/-- A peer with the distinct identity "peer1". -/
def peerOther : Peer := ⟨"peer1", "grpc-url-c", "grpc-broadcast-c", "adminC"⟩

/-- A peer whose identity is the prototype-accessor key: its assignment
creates no own property, so it is dropped from the registry. -/
def peerProto : Peer := ⟨"__proto__", "grpc-url-p", "grpc-broadcast-p", "adminP"⟩

/-! ### Lemmas about first-occurrence deduplication -/

theorem mem_dedupFirstAux (a : String) :
    ∀ (l seen : List String), a ∈ dedupFirstAux seen l ↔ a ∈ l ∧ a ∉ seen := by
  intro l
  induction l with
  | nil => intro seen; simp [dedupFirstAux]
  | cons c cs ih =>
    intro seen
    by_cases hc : c ∈ seen
    · simp only [dedupFirstAux, if_pos hc, ih, List.mem_cons]
      constructor
      · rintro ⟨h1, h2⟩; exact ⟨Or.inr h1, h2⟩
      · rintro ⟨h1 | h1, h2⟩
        · exact absurd (h1 ▸ hc) h2
        · exact ⟨h1, h2⟩
    · simp only [dedupFirstAux, if_neg hc, List.mem_cons, ih]
      by_cases hac : a = c
      · subst hac; simp [hc]
      · simp [hac]

theorem mem_dedupFirst (a : String) (l : List String) :
    a ∈ dedupFirst l ↔ a ∈ l := by
  simp [dedupFirst, mem_dedupFirstAux]

theorem nodup_dedupFirstAux : ∀ (l seen : List String), (dedupFirstAux seen l).Nodup := by
  intro l
  induction l with
  | nil => intro seen; simp [dedupFirstAux]
  | cons c cs ih =>
    intro seen
    by_cases hc : c ∈ seen
    · simpa [dedupFirstAux, hc] using ih seen
    · simp only [dedupFirstAux, if_neg hc, List.nodup_cons]
      refine ⟨?_, ih (c :: seen)⟩
      intro hmem
      exact ((mem_dedupFirstAux c cs (c :: seen)).mp hmem).2 (List.mem_cons_self c seen)

theorem length_dedupFirstAux : ∀ (l seen : List String),
    (dedupFirstAux seen l).length ≤ l.length := by
  intro l
  induction l with
  | nil => intro seen; simp [dedupFirstAux]
  | cons c cs ih =>
    intro seen
    by_cases hc : c ∈ seen
    · simp only [dedupFirstAux, if_pos hc]
      exact Nat.le_trans (ih seen) (Nat.le_succ _)
    · simp only [dedupFirstAux, if_neg hc, List.length_cons]
      exact Nat.succ_le_succ (ih (c :: seen))

theorem dedupFirstAux_concat (c : String) : ∀ (l seen : List String),
    dedupFirstAux seen (l ++ [c])
      = dedupFirstAux seen l ++ (if c ∈ seen ∨ c ∈ l then [] else [c]) := by
  intro l
  induction l with
  | nil =>
    intro seen
    by_cases hc : c ∈ seen <;> simp [dedupFirstAux, hc]
  | cons x xs ih =>
    intro seen
    by_cases hx : x ∈ seen
    · have hcond : (c ∈ seen ∨ c ∈ x :: xs) ↔ (c ∈ seen ∨ c ∈ xs) := by
        constructor
        · rintro (h | h)
          · exact Or.inl h
          · rcases List.mem_cons.mp h with h | h
            · exact Or.inl (h ▸ hx)
            · exact Or.inr h
        · rintro (h | h)
          · exact Or.inl h
          · exact Or.inr (List.mem_cons_of_mem _ h)
      simp only [List.cons_append, dedupFirstAux, if_pos hx, List.append_eq, ih seen, hcond]
    · have hcond : (c ∈ x :: seen ∨ c ∈ xs) ↔ (c ∈ seen ∨ c ∈ x :: xs) := by
        simp only [List.mem_cons]
        tauto
      simp only [List.cons_append, dedupFirstAux, if_neg hx, List.append_eq, ih (x :: seen),
        hcond, List.cons_append]

theorem dedupFirst_concat (c : String) (l : List String) :
    dedupFirst (l ++ [c]) = if c ∈ l then dedupFirst l else dedupFirst l ++ [c] := by
  by_cases hc : c ∈ l <;>
    simp [dedupFirst, dedupFirstAux_concat, hc]

/-! ### Lemmas about the peer registry -/

theorem peersAssoc_concat (ps : List Peer) (p : Peer) :
    peersAssoc (ps ++ [p]) = insertPeer (peersAssoc ps) p := by
  simp [peersAssoc, List.foldl_append]

theorem any_key_iff (A : List (String × Peer)) (k : String) :
    A.any (fun kv => kv.1 == k) = true ↔ k ∈ A.map Prod.fst := by
  rw [List.any_eq_true]
  constructor
  · rintro ⟨kv, hkv, hbeq⟩
    exact List.mem_map.mpr ⟨kv, hkv, eq_of_beq hbeq⟩
  · intro h
    rcases List.mem_map.mp h with ⟨kv, hkv, hfst⟩
    exact ⟨kv, hkv, beq_iff_eq.mpr hfst⟩

theorem fst_insertPeer (A : List (String × Peer)) (p : Peer) :
    (insertPeer A p).map Prod.fst =
      if p.cn = protoKey then A.map Prod.fst
      else if p.cn ∈ A.map Prod.fst then A.map Prod.fst else A.map Prod.fst ++ [p.cn] := by
  unfold insertPeer
  by_cases hproto : p.cn = protoKey
  · rw [if_pos (beq_iff_eq.mpr hproto), if_pos hproto]
  · rw [if_neg (fun hb => hproto (eq_of_beq hb)), if_neg hproto]
    by_cases h : p.cn ∈ A.map Prod.fst
    · rw [if_pos ((any_key_iff A p.cn).mpr h), if_pos h, List.map_map]
      have hf : (Prod.fst ∘ fun kv : String × Peer => if kv.1 == p.cn then (kv.1, p) else kv)
          = Prod.fst := by
        funext kv
        by_cases hc : kv.1 == p.cn <;> simp [Function.comp, hc]
      rw [hf]
    · have hany : A.any (fun kv => kv.1 == p.cn) = false := by
        rw [← Bool.not_eq_true]
        intro hc
        exact h ((any_key_iff A p.cn).mp hc)
      rw [hany, if_neg h]
      simp

theorem fst_peersAssoc : ∀ (ps : List Peer),
    (peersAssoc ps).map Prod.fst
      = dedupFirst ((ps.map Peer.cn).filter (fun c => c != protoKey)) := by
  intro ps
  induction ps using List.reverseRecOn with
  | nil => rfl
  | append_singleton ps p ih =>
    rw [peersAssoc_concat, fst_insertPeer, ih, List.map_append, List.map_cons, List.map_nil,
      List.filter_append]
    by_cases hproto : p.cn = protoKey
    · have hfil : ([p.cn].filter (fun c => c != protoKey)) = [] := by
        simp [hproto]
      rw [if_pos hproto, hfil, List.append_nil]
    · have hfil : ([p.cn].filter (fun c => c != protoKey)) = [p.cn] := by
        simp [hproto]
      rw [if_neg hproto, hfil, dedupFirst_concat]
      by_cases h : p.cn ∈ (ps.map Peer.cn).filter (fun c => c != protoKey)
      · rw [if_pos ((mem_dedupFirst _ _).mpr h), if_pos h]
      · rw [if_neg (fun hc => h ((mem_dedupFirst _ _).mp hc)), if_neg h]

theorem cn_invariant : ∀ (ps : List Peer), ∀ kv ∈ peersAssoc ps, kv.2.cn = kv.1 := by
  intro ps
  induction ps using List.reverseRecOn with
  | nil => intro kv hkv; simp [peersAssoc] at hkv
  | append_singleton ps p ih =>
    intro kv hkv
    rw [peersAssoc_concat] at hkv
    unfold insertPeer at hkv
    by_cases hproto : (p.cn == protoKey) = true
    · rw [if_pos hproto] at hkv
      exact ih kv hkv
    · rw [if_neg hproto] at hkv
      by_cases h : (peersAssoc ps).any (fun kv => kv.1 == p.cn) = true
      · rw [if_pos h] at hkv
        rcases List.mem_map.mp hkv with ⟨kv', hkv', heq⟩
        by_cases hc : kv'.1 == p.cn
        · rw [if_pos hc] at heq
          rw [← heq]
          exact (eq_of_beq hc).symm
        · rw [if_neg hc] at heq
          exact heq ▸ ih kv' hkv'
      · rw [if_neg h] at hkv
        rcases List.mem_append.mp hkv with hmem | hmem
        · exact ih kv hmem
        · rcases List.mem_singleton.mp hmem with rfl
          rfl

theorem proto_not_key (ps : List Peer) (kv : String × Peer) (hkv : kv ∈ peersAssoc ps) :
    kv.1 ≠ protoKey := by
  have h1 : kv.1 ∈ (peersAssoc ps).map Prod.fst := List.mem_map.mpr ⟨kv, hkv, rfl⟩
  rw [fst_peersAssoc] at h1
  have h2 := (List.mem_filter.mp ((mem_dedupFirst _ _).mp h1)).2
  exact bne_iff_ne.mp h2

theorem insertByNum_perm (kv : String × Peer) : ∀ (l : List (String × Peer)),
    (insertByNum kv l).Perm (kv :: l) := by
  intro l
  induction l with
  | nil => simp [insertByNum]
  | cons x xs ih =>
    unfold insertByNum
    by_cases h : keyNum kv ≤ keyNum x
    · rw [if_pos h]
    · rw [if_neg h]
      exact (ih.cons x).trans (List.Perm.swap kv x xs)

theorem sortByNum_perm : ∀ (l : List (String × Peer)), (sortByNum l).Perm l := by
  intro l
  induction l with
  | nil => simp [sortByNum]
  | cons x xs ih =>
    unfold sortByNum
    exact (insertByNum_perm x (sortByNum xs)).trans (ih.cons x)

theorem objectValues_perm (A : List (String × Peer)) :
    (objectValues A).Perm (A.map Prod.snd) := by
  unfold objectValues
  refine List.Perm.map Prod.snd ?_
  refine List.Perm.trans (List.Perm.append (sortByNum_perm _) (List.Perm.refl _)) ?_
  exact List.filter_append_perm _ A

theorem lookup_insertPeer_self (p : Peer) (hp : p.cn ≠ protoKey) :
    ∀ (A : List (String × Peer)), lookupKey p.cn (insertPeer A p) = some p := by
  intro A
  unfold insertPeer
  rw [if_neg (fun hb => hp (eq_of_beq hb))]
  by_cases h : A.any (fun kv => kv.1 == p.cn) = true
  · rw [if_pos h]
    induction A with
    | nil => simp at h
    | cons kv rest ih =>
      by_cases hc : kv.1 == p.cn
      · simp [lookupKey, hc]
      · rw [List.map_cons, if_neg hc]
        rw [List.any_cons] at h
        have hrest : rest.any (fun kv => kv.1 == p.cn) = true := by
          rcases Bool.or_eq_true_iff.mp h with h1 | h1
          · exact absurd h1 hc
          · exact h1
        simp only [lookupKey, if_neg hc]
        exact ih hrest
  · rw [if_neg h]
    induction A with
    | nil => simp [lookupKey]
    | cons kv rest ih =>
      rw [List.any_cons] at h
      have hkv : ¬ (kv.1 == p.cn) = true := fun hc => h (Bool.or_eq_true_iff.mpr (Or.inl hc))
      have hrest : ¬ rest.any (fun kv => kv.1 == p.cn) = true :=
        fun hc => h (Bool.or_eq_true_iff.mpr (Or.inr hc))
      simp only [List.cons_append, lookupKey, if_neg hkv]
      exact ih hrest

theorem lookup_map_other (p : Peer) (k : String) (hk : k ≠ p.cn) :
    ∀ (A : List (String × Peer)),
      lookupKey k (A.map (fun kv => if kv.1 == p.cn then (kv.1, p) else kv)) = lookupKey k A := by
  intro A
  induction A with
  | nil => rfl
  | cons kv rest ih =>
    rw [List.map_cons]
    by_cases hc : kv.1 == p.cn
    · have hne : ¬ (kv.1 == k) = true := by
        intro hx
        exact hk ((eq_of_beq hx).symm.trans (eq_of_beq hc))
      simp only [lookupKey, if_pos hc, if_neg hne, ih]
    · simp only [lookupKey, if_neg hc]
      by_cases hx : kv.1 == k
      · rw [if_pos hx, if_pos hx]
      · rw [if_neg hx, if_neg hx, ih]

theorem lookup_append_other (p : Peer) (k : String) (hk : k ≠ p.cn) :
    ∀ (A : List (String × Peer)), lookupKey k (A ++ [(p.cn, p)]) = lookupKey k A := by
  intro A
  induction A with
  | nil =>
    have hne : ¬ (p.cn == k) = true := by
      intro hx; exact hk (eq_of_beq hx).symm
    simp [lookupKey, hne]
  | cons kv rest ih =>
    rw [List.cons_append]
    simp only [lookupKey]
    by_cases hx : kv.1 == k
    · rw [if_pos hx, if_pos hx]
    · rw [if_neg hx, if_neg hx, ih]

theorem lookup_insertPeer_other (p : Peer) (k : String) (hk : k ≠ p.cn)
    (A : List (String × Peer)) : lookupKey k (insertPeer A p) = lookupKey k A := by
  unfold insertPeer
  by_cases hproto : (p.cn == protoKey) = true
  · rw [if_pos hproto]
  · rw [if_neg hproto]
    by_cases h : A.any (fun kv => kv.1 == p.cn) = true
    · rw [if_pos h]
      exact lookup_map_other p k hk A
    · rw [if_neg h]
      exact lookup_append_other p k hk A

theorem lookup_peersAssoc (k : String) (hkp : k ≠ protoKey) : ∀ (ps : List Peer),
    lookupKey k (peersAssoc ps) = (ps.filter (fun q => q.cn == k)).getLast? := by
  intro ps
  induction ps using List.reverseRecOn with
  | nil => rfl
  | append_singleton ps p ih =>
    rw [peersAssoc_concat, List.filter_append]
    by_cases hp : (p.cn == k) = true
    · have hk : k = p.cn := (eq_of_beq hp).symm
      have hpp : p.cn ≠ protoKey := fun hc => hkp (hk.trans hc)
      rw [hk, lookup_insertPeer_self p hpp]
      simp [List.filter_cons, hp]
    · have hk : k ≠ p.cn := by
        intro hx; exact hp (beq_iff_eq.mpr (hx ▸ rfl))
      rw [lookup_insertPeer_other p k hk, ih]
      simp [List.filter_cons, hp]

theorem mem_lookup (kv : String × Peer) : ∀ (A : List (String × Peer)),
    (A.map Prod.fst).Nodup → kv ∈ A → lookupKey kv.1 A = some kv.2 := by
  intro A
  induction A with
  | nil => intro _ h; simp at h
  | cons kv' rest ih =>
    intro hnd hmem
    rw [List.map_cons, List.nodup_cons] at hnd
    rcases List.mem_cons.mp hmem with rfl | hmem
    · simp [lookupKey]
    · have hne : ¬ (kv'.1 == kv.1) = true := by
        intro hx
        exact hnd.1 ((eq_of_beq hx) ▸ List.mem_map.mpr ⟨kv, hmem, rfl⟩)
      simp only [lookupKey, if_neg hne]
      exact ih hnd.2 hmem

theorem uniquePeers_cns_nodup (peers : List Peer) :
    ((uniquePeers peers).map Peer.cn).Nodup := by
  have hperm : ((uniquePeers peers).map Peer.cn).Perm
      (((peersAssoc peers).map Prod.snd).map Peer.cn) :=
    List.Perm.map Peer.cn (objectValues_perm (peersAssoc peers))
  rw [List.Perm.nodup_iff hperm, List.map_map]
  have hmap : (peersAssoc peers).map (Peer.cn ∘ Prod.snd) = (peersAssoc peers).map Prod.fst := by
    apply List.map_congr_left
    intro kv hkv
    exact cn_invariant peers kv hkv
  rw [hmap, fst_peersAssoc]
  exact nodup_dedupFirstAux _ _

theorem uniquePeers_length_le (peers : List Peer) :
    (uniquePeers peers).length ≤ peers.length := by
  have h1 : (uniquePeers peers).length = (peersAssoc peers).length := by
    show (objectValues (peersAssoc peers)).length = _
    rw [List.Perm.length_eq (objectValues_perm (peersAssoc peers)), List.length_map]
  have h2 : (peersAssoc peers).length
      = (dedupFirst ((peers.map Peer.cn).filter (fun c => c != protoKey))).length := by
    rw [← fst_peersAssoc, List.length_map]
  rw [h1, h2]
  calc (dedupFirst ((peers.map Peer.cn).filter (fun c => c != protoKey))).length
      ≤ ((peers.map Peer.cn).filter (fun c => c != protoKey)).length :=
        length_dedupFirstAux _ _
    _ ≤ (peers.map Peer.cn).length := List.length_filter_le _ _
    _ = peers.length := List.length_map _ _

theorem uniquePeers_order (peers : List Peer)
    (hidx : ∀ p ∈ peers, arrayIndexKey p.cn = none) :
    (uniquePeers peers).map Peer.cn
      = dedupFirst ((peers.map Peer.cn).filter (fun c => c != protoKey)) := by
  have hkeys : ∀ kv ∈ peersAssoc peers, arrayIndexKey kv.1 = none := by
    intro kv hkv
    have h1 : kv.1 ∈ (peersAssoc peers).map Prod.fst := List.mem_map.mpr ⟨kv, hkv, rfl⟩
    rw [fst_peersAssoc] at h1
    have h2 : kv.1 ∈ peers.map Peer.cn :=
      (List.mem_filter.mp ((mem_dedupFirst _ _).mp h1)).1
    rcases List.mem_map.mp h2 with ⟨q, hq, hcn⟩
    exact hcn ▸ hidx q hq
  have hfil1 : (peersAssoc peers).filter (fun kv => (arrayIndexKey kv.1).isSome) = [] := by
    rw [List.filter_eq_nil_iff]
    intro kv hkv
    simp [hkeys kv hkv]
  have hfil2 : (peersAssoc peers).filter (fun kv => !(arrayIndexKey kv.1).isSome)
      = peersAssoc peers := by
    rw [List.filter_eq_self]
    intro kv hkv
    simp [hkeys kv hkv]
  unfold uniquePeers objectValues
  rw [hfil1, hfil2]
  show ((sortByNum [] ++ peersAssoc peers).map Prod.snd).map Peer.cn = _
  rw [show sortByNum [] = [] from rfl, List.nil_append, List.map_map]
  have hmap : (peersAssoc peers).map (Peer.cn ∘ Prod.snd) = (peersAssoc peers).map Prod.fst := by
    apply List.map_congr_left
    intro kv hkv
    exact cn_invariant peers kv hkv
  rw [hmap, fst_peersAssoc]

theorem uniquePeers_last_occurrence (peers : List Peer) (p : Peer)
    (hp : p ∈ uniquePeers peers) :
    (peers.filter (fun q => q.cn == p.cn)).getLast? = some p := by
  have hmem : p ∈ (peersAssoc peers).map Prod.snd :=
    (List.Perm.mem_iff (objectValues_perm (peersAssoc peers))).mp hp
  rcases List.mem_map.mp hmem with ⟨kv, hkv, hsnd⟩
  have hcn : kv.1 = p.cn := by rw [← hsnd]; exact (cn_invariant peers kv hkv).symm
  have hnd : ((peersAssoc peers).map Prod.fst).Nodup := by
    rw [fst_peersAssoc]; exact nodup_dedupFirstAux _ _
  have hproto : p.cn ≠ protoKey := hcn ▸ proto_not_key peers kv hkv
  have hlook : lookupKey kv.1 (peersAssoc peers) = some kv.2 := mem_lookup kv _ hnd hkv
  rw [hcn, hsnd] at hlook
  rw [← lookup_peersAssoc p.cn hproto peers, hlook]

/-! ### Lemmas about the listener state machine -/

theorem step_preserves_settled (s : LState) (e : LEvent) (r : LResult)
    (h : s.settled = some r) : (step s e).settled = some r := by
  cases e with
  | commit code =>
    simp only [step]
    by_cases hreg : s.registered = true
    · rw [if_pos hreg]
      by_cases hc : (code != "VALID") = true
      · rw [if_pos hc]; simp [settleWith, h]
      · rw [if_neg hc]; simp [settleWith, h]
    · rw [if_neg hreg]; exact h
  | hubErr err =>
    simp only [step]
    by_cases hreg : s.registered = true
    · rw [if_pos hreg]
      by_cases hb : s.retries ≥ MAX_RETRIES_EVENT_HUB
      · rw [if_pos hb]; exact h
      · rw [if_neg hb]; simp [settleWith, h]
    · rw [if_neg hreg]; exact h
  | timerFire =>
    simp only [step]
    by_cases ha : s.timerArmed = true
    · rw [if_pos ha]; simp [settleWith, h]
    · rw [if_neg ha]; exact h

theorem commit_transition (s : LState) (code : String) (hreg : s.registered = true) :
    (step s (LEvent.commit code)).timerArmed = false
    ∧ (step s (LEvent.commit code)).connected = false
    ∧ (step s (LEvent.commit code)).settled.isSome = true := by
  simp only [step]
  rw [if_pos hreg]
  by_cases hc : (code != "VALID") = true
  · rw [if_pos hc]
    cases hs : s.settled <;> simp [settleWith, hs]
  · rw [if_neg hc]
    cases hs : s.settled <;> simp [settleWith, hs]

theorem timerFire_transition (s : LState) (ha : s.timerArmed = true) :
    (step s LEvent.timerFire).connected = false := by
  simp only [step]
  rw [if_pos ha]
  cases hs : s.settled <;> simp [settleWith, hs]

theorem hubErr_fatal_transition (s : LState) (err : String) (hreg : s.registered = true)
    (hb : s.retries < MAX_RETRIES_EVENT_HUB) :
    (step s (LEvent.hubErr err)).connected = s.connected
    ∧ (step s (LEvent.hubErr err)).timerArmed = s.timerArmed
    ∧ (step s (LEvent.hubErr err)).settled.isSome = true := by
  simp only [step]
  rw [if_pos hreg, if_neg (Nat.not_le.mpr hb)]
  cases hs : s.settled <;> simp [settleWith, hs]

/-! ### Claim theorems -/

/-- Claim C1 (code bug): the bound check of the error callback is inverted.
With the listener freshly armed (retries = 0), the very first transport
error already rejects the listener fatally with the eventhub error, instead
of re-arming; conversely, in a state with retries = MAX_RETRIES_EVENT_HUB
(the sixth consecutive error) the code re-arms the listener (stays
registered, promise not settled) instead of terminating, and keeps counting.
The retry branch is the one whose log message says "retrying", so the
intended condition is retries < MAX_RETRIES_EVENT_HUB. -/
theorem C1_first_transport_error_rejects_fatally :
    (step (initListening "tx1") (LEvent.hubErr "EventHub has been shutdown")).settled
      = some (LResult.rejected "There was a problem with the eventhub: EventHub has been shutdown ")
    ∧ (initListening "tx1").retries = 0
    ∧ (step { initListening "tx1" with retries := MAX_RETRIES_EVENT_HUB }
        (LEvent.hubErr "again")).settled = none
    ∧ (step { initListening "tx1" with retries := MAX_RETRIES_EVENT_HUB }
        (LEvent.hubErr "again")).registered = true
    ∧ (step { initListening "tx1" with retries := MAX_RETRIES_EVENT_HUB }
        (LEvent.hubErr "again")).retries = MAX_RETRIES_EVENT_HUB + 1 := by
  decide

/-- Claim C2 (counterexample): the fatal eventhub rejection is a terminal
non-timeout transition that settles the listener promise while the deadline
timer is still armed, so it is not true that every such transition cancels
the timer before settling. -/
theorem C2_fatal_rejection_leaves_timer_armed :
    ((step (initListening "tx3") (LEvent.hubErr "disconnect")).settled).isSome = true
    ∧ (step (initListening "tx3") (LEvent.hubErr "disconnect")).timerArmed = true := by
  decide

/-- Claim C2 (amended): the commit-event transitions (valid and invalid
code) cancel the deadline timer before settling; the fatal eventhub
rejection does not cancel it, but a promise settles at most once, so no
event — in particular not a later timer firing — can change an already
settled outcome. -/
theorem C2_timer_cancellation_amended :
    (∀ (s : LState) (code : String), s.registered = true →
        (step s (LEvent.commit code)).timerArmed = false
        ∧ (step s (LEvent.commit code)).settled.isSome = true)
    ∧ (∀ (s : LState) (e : LEvent) (r : LResult),
        s.settled = some r → (step s e).settled = some r) :=
  ⟨fun s code h => ⟨(commit_transition s code h).1, (commit_transition s code h).2.2⟩,
   fun s e r h => step_preserves_settled s e r h⟩

/-- Witness for C2: a valid commit from the armed state cancels the timer,
and after the fatal eventhub rejection a timer firing leaves the settled
rejection unchanged. -/
theorem C2_timer_cancellation_amended_witness :
    (step (initListening "w2") (LEvent.commit "VALID")).timerArmed = false
    ∧ (step (step (initListening "w2e") (LEvent.hubErr "x")) LEvent.timerFire).settled
        = some (LResult.rejected "There was a problem with the eventhub: x ") :=
  ⟨(C2_timer_cancellation_amended.1 (initListening "w2") "VALID" rfl).1,
   C2_timer_cancellation_amended.2 (step (initListening "w2e") (LEvent.hubErr "x"))
     LEvent.timerFire (LResult.rejected "There was a problem with the eventhub: x ")
     (by decide)⟩

/-- Claim C3: the reconciler succeeds exactly when the ordering submission
has status "SUCCESS" and the listener result has event status "VALID"; on
success it resolves with the decoded endorsement payload (JSON-parsed, or
raw text when parsing fails) and never with anything else; on any other
combination it rejects with the per-leg failure reasons joined by
newlines. -/
theorem C3_outcome_reconciler (parse : String → Option Json) (payload : String)
    (r0 : OrdererResult) (r1 : TxEventStatus) :
    (reconcile (decodePayload parse payload) r0 r1 = Except.ok (decodePayload parse payload)
      ↔ (r0.status = "SUCCESS" ∧ r1.event_status = "VALID"))
    ∧ (∀ d, reconcile (decodePayload parse payload) r0 r1 = Except.ok d
        → d = decodePayload parse payload)
    ∧ (¬ (r0.status = "SUCCESS" ∧ r1.event_status = "VALID") →
        reconcile (decodePayload parse payload) r0 r1
          = Except.error (String.intercalate "\n"
              ((if r0.status = "SUCCESS" then [] else [orderFailureMsg])
                ++ (if r1.event_status = "VALID" then []
                    else [commitFailureMsg r1.event_status])))) := by
  by_cases h0 : r0.status = "SUCCESS" <;> by_cases h1 : r1.event_status = "VALID" <;>
    simp [reconcile, h0, h1]

/-- Witness for C3: with a failed ordering submission and an invalid commit
code, the reconciler rejects with both per-leg reasons joined by a
newline. -/
theorem C3_outcome_reconciler_witness :
    reconcile (decodePayload jsonNever "endorsement payload") { status := "FAILURE" }
        { event_status := "MVCC_READ_CONFLICT", tx_id := "t1" }
      = Except.error (String.intercalate "\n"
          [orderFailureMsg, commitFailureMsg "MVCC_READ_CONFLICT"]) := by
  have h := (C3_outcome_reconciler jsonNever "endorsement payload" { status := "FAILURE" }
      { event_status := "MVCC_READ_CONFLICT", tx_id := "t1" }).2.2 (by decide)
  rw [if_neg (by decide), if_neg (by decide)] at h
  exact h

/-- Claim C4 (counterexample): on a first response carrying both a non-200
response object and a diagnostic message, the code rejects with the decoded
payload, not with the diagnostic-parsed reason the claim gives precedence
to. -/
theorem C4_reason_preference_counterexample :
    evalProposal jsonNever pemDemo (some [cexFirstResponse])
      = ProposalEval.reject "bad endorsement"
    ∧ claimC4Reason jsonNever pemDemo (some [cexFirstResponse])
      = "Error: status: 500, message: bad endorsement"
    ∧ ("bad endorsement" : String) ≠ "Error: status: 500, message: bad endorsement" :=
  ⟨rfl, rfl, by decide⟩

/-- Claim C4 (amended): the workflow advances to commit orchestration iff
the first proposal response carries a response object with status 200, in
which case the decoded payload is carried along; otherwise it rejects, and
the reason is: for a response object with non-200 status, the decoded
payload when truthy else the generic message (any diagnostic message on the
same response is ignored); for a message without a response object, the
diagnostic-parsed reason; otherwise the generic message. -/
theorem C4_endorsement_evaluation_amended (parse : String → Option Json)
    (pem : String → String) (prs : Option (List PropResponse)) :
    ((∃ d, evalProposal parse pem prs = ProposalEval.proceed d)
        ↔ (∃ r0 rest resp, prs = some (r0 :: rest) ∧ r0.response = some resp
            ∧ resp.status = 200))
    ∧ (∀ r0 rest resp, prs = some (r0 :: rest) → r0.response = some resp →
        resp.status = 200 →
        evalProposal parse pem prs = ProposalEval.proceed (decodePayload parse resp.payload))
    ∧ (∀ r0 rest resp, prs = some (r0 :: rest) → r0.response = some resp →
        resp.status ≠ 200 →
        evalProposal parse pem prs = ProposalEval.reject
          (if truthyDecoded (decodePayload parse resp.payload)
            then decodedToMessage (decodePayload parse resp.payload)
            else genericProposalFailure))
    ∧ (∀ r0 rest m, prs = some (r0 :: rest) → r0.response = none → r0.message = some m →
        evalProposal parse pem prs = ProposalEval.reject (pem m))
    ∧ (∀ r0 rest, prs = some (r0 :: rest) → r0.response = none → r0.message = none →
        evalProposal parse pem prs = ProposalEval.reject genericProposalFailure)
    ∧ (prs = none → evalProposal parse pem prs = ProposalEval.reject genericProposalFailure)
    := by
  refine ⟨?_, ?_, ?_, ?_, ?_, ?_⟩
  · constructor
    · rintro ⟨d, hd⟩
      match prs with
      | none => simp [evalProposal] at hd
      | some [] => simp [evalProposal] at hd
      | some (r0 :: rest) =>
        match hresp : r0.response with
        | some resp =>
          by_cases hs : resp.status = 200
          · exact ⟨r0, rest, resp, rfl, hresp, hs⟩
          · by_cases ht : truthyDecoded (decodePayload parse resp.payload) = true <;>
              simp [evalProposal, hresp, hs, ht] at hd
        | none =>
          match hmsg : r0.message with
          | some m => simp [evalProposal, hresp, hmsg] at hd
          | none => simp [evalProposal, hresp, hmsg] at hd
    · rintro ⟨r0, rest, resp, rfl, hresp, hs⟩
      exact ⟨decodePayload parse resp.payload, by simp [evalProposal, hresp, hs]⟩
  · rintro r0 rest resp rfl hresp hs
    simp [evalProposal, hresp, hs]
  · rintro r0 rest resp rfl hresp hs
    by_cases ht : truthyDecoded (decodePayload parse resp.payload) = true <;>
      simp [evalProposal, hresp, hs, ht]
  · rintro r0 rest m rfl hresp hmsg
    simp [evalProposal, hresp, hmsg]
  · rintro r0 rest rfl hresp hmsg
    simp [evalProposal, hresp, hmsg]
  · rintro rfl
    simp [evalProposal]

/-- Witness for C4: a first response with a non-200 response object and no
message rejects with its truthy decoded payload. -/
theorem C4_endorsement_evaluation_amended_witness :
    evalProposal jsonNever pemDemo
        (some [{ response := some { status := 500, payload := "bad endorsement" }
                 message := none }])
      = ProposalEval.reject "bad endorsement" := by
  have h := (C4_endorsement_evaluation_amended jsonNever pemDemo
      (some [{ response := some { status := 500, payload := "bad endorsement" }
               message := none }])).2.2.1
      { response := some { status := 500, payload := "bad endorsement" }, message := none }
      [] { status := 500, payload := "bad endorsement" } rfl rfl (by decide)
  exact h

/-- Claim C5 (code bug): a commit event with the invalid code
MVCC_READ_CONFLICT rejects the listener with `new Error(returnStatus)`
whose message is the object stringification "[object Object]", which does
not reference the validation code; the whole invocation then rejects with
that same message.  The unreachable reconciler branch for an invalid commit
would have referenced the code. -/
theorem C5_invalid_commit_rejection_message :
    (step (initListening "tx2") (LEvent.commit "MVCC_READ_CONFLICT")).settled
      = some (LResult.rejected jsObjectErrorMessage)
    ∧ mentionsCode jsObjectErrorMessage "MVCC_READ_CONFLICT" = false
    ∧ mentionsCode (commitFailureMsg "MVCC_READ_CONFLICT") "MVCC_READ_CONFLICT" = true
    ∧ invokeAfterProposal (Sum.inr "payload") { status := "SUCCESS" }
        (LResult.rejected jsObjectErrorMessage) = Except.error jsObjectErrorMessage :=
  ⟨by decide, by decide, by decide, rfl⟩

/-- Claim C6 (counterexample): the fatal eventhub rejection settles the
listener promise while the event channel is still connected, so not every
exit path disconnects the channel before settling. -/
theorem C6_fatal_rejection_leaves_channel_open :
    ((step (initListening "tx4") (LEvent.hubErr "drop")).settled).isSome = true
    ∧ (step (initListening "tx4") (LEvent.hubErr "drop")).connected = true := by
  decide

/-- Claim C6 (amended): the commit-event transitions (valid and invalid
code) and the deadline-timer transition disconnect the event channel, but
the fatal eventhub rejection settles without touching the connection; the
channel is closed only later, when the still-armed timer fires. -/
theorem C6_disconnect_amended :
    (∀ (s : LState) (code : String), s.registered = true →
        (step s (LEvent.commit code)).connected = false
        ∧ (step s (LEvent.commit code)).settled.isSome = true)
    ∧ (∀ (s : LState), s.timerArmed = true → (step s LEvent.timerFire).connected = false)
    ∧ (∀ (s : LState) (err : String), s.registered = true →
        s.retries < MAX_RETRIES_EVENT_HUB →
        (step s (LEvent.hubErr err)).connected = s.connected
        ∧ (step s (LEvent.hubErr err)).settled.isSome = true) :=
  ⟨fun s code h => ⟨(commit_transition s code h).2.1, (commit_transition s code h).2.2⟩,
   fun s h => timerFire_transition s h,
   fun s err h hb => ⟨(hubErr_fatal_transition s err h hb).1,
     (hubErr_fatal_transition s err h hb).2.2⟩⟩

/-- Witness for C6: commit and timer transitions from the armed state leave
the channel disconnected, while the fatal eventhub rejection leaves it as
it was. -/
theorem C6_disconnect_amended_witness :
    (step (initListening "w6") (LEvent.commit "VALID")).connected = false
    ∧ (step (initListening "w6t") LEvent.timerFire).connected = false
    ∧ (step (initListening "w6e") (LEvent.hubErr "z")).connected
        = (initListening "w6e").connected :=
  ⟨(C6_disconnect_amended.1 (initListening "w6") "VALID" rfl).1,
   C6_disconnect_amended.2.1 (initListening "w6t") rfl,
   (C6_disconnect_amended.2.2 (initListening "w6e") "z" rfl (by decide)).1⟩

/-- Claim C7: whenever the supplied peer list (absent, null, empty, or
deduplicating to the empty set) yields no unique peers, `invoke` rejects
synchronously with the no-endorser-peers error, and the rejected branch
consumes no network capability (the first capability, the fabric-client
creation, belongs only to the proceeding branch). -/
theorem C7_no_peers_rejects_before_network (po : Option (List Peer)) :
    uniquePeers (po.getD []) = [] →
    invokeStart po = InvokeStart.rejected "No endorser peers provided."
    ∧ startNetworkCalls (invokeStart po) = [] := by
  intro h
  have hstart : invokeStart po = InvokeStart.rejected "No endorser peers provided." := by
    simp [invokeStart, h]
  exact ⟨hstart, by rw [hstart]; rfl⟩

/-- Witness for C7: an absent peer list rejects early with no network
calls. -/
theorem C7_no_peers_rejects_before_network_witness :
    invokeStart none = InvokeStart.rejected "No endorser peers provided."
    ∧ startNetworkCalls (invokeStart none) = [] :=
  C7_no_peers_rejects_before_network none rfl

/-- Claim C8 (counterexample): with the array-index identities "2" and "1",
`Object.values` lists the peers in ascending numeric key order, so the
deduplicated identities are not in first-occurrence order. -/
theorem C8_first_seen_order_counterexample :
    (uniquePeers [peerNum2, peerNum1]).map Peer.cn = ["1", "2"]
    ∧ dedupFirst ([peerNum2, peerNum1].map Peer.cn) = ["2", "1"]
    ∧ ¬ ((uniquePeers [peerNum2, peerNum1]).map Peer.cn
          = dedupFirst ([peerNum2, peerNum1].map Peer.cn)) := by
  refine ⟨by decide, by decide, by decide⟩

/-- Claim C8 (amended): for every input peer list the deduplicated list has
pairwise distinct identities and is no longer than the input; peers whose
identity is the prototype-accessor key `__proto__` are dropped entirely
(their assignment creates no own property); the remaining identities appear
in first-occurrence order provided no identity is a JavaScript array-index
string (canonical base-10 integer below 2^32 - 1) — array-index identities
are instead listed first in ascending numeric order. -/
theorem C8_registry_amended (peers : List Peer) :
    ((uniquePeers peers).map Peer.cn).Nodup
    ∧ (uniquePeers peers).length ≤ peers.length
    ∧ ((∀ p ∈ peers, arrayIndexKey p.cn = none) →
        (uniquePeers peers).map Peer.cn
          = dedupFirst (((peers.map Peer.cn).filter (fun c => c != protoKey)))) :=
  ⟨uniquePeers_cns_nodup peers, uniquePeers_length_le peers, uniquePeers_order peers⟩

/-- Witness for C8: a list with a duplicated non-numeric identity and one
prototype-key identity collapses to the distinct surviving identities in
first-occurrence order, the prototype-key peer being dropped. -/
theorem C8_registry_amended_witness :
    ((uniquePeers [peerDupA, peerProto, peerOther, peerDupB]).map Peer.cn).Nodup
    ∧ (uniquePeers [peerDupA, peerProto, peerOther, peerDupB]).length
        ≤ ([peerDupA, peerProto, peerOther, peerDupB] : List Peer).length
    ∧ (uniquePeers [peerDupA, peerProto, peerOther, peerDupB]).map Peer.cn
        = dedupFirst ((([peerDupA, peerProto, peerOther, peerDupB].map Peer.cn).filter
            (fun c => c != protoKey))) :=
  ⟨(C8_registry_amended [peerDupA, peerProto, peerOther, peerDupB]).1,
   (C8_registry_amended [peerDupA, peerProto, peerOther, peerDupB]).2.1,
   (C8_registry_amended [peerDupA, peerProto, peerOther, peerDupB]).2.2 (by decide)⟩

/-- Claim C9: every peer retained in the deduplicated list — in particular
the listening peer `uniquePeers[0]` — is the last occurrence of its
identity in the input list. -/
theorem C9_last_occurrence_retained (peers : List Peer) (p : Peer) :
    (p ∈ uniquePeers peers → (peers.filter (fun q => q.cn == p.cn)).getLast? = some p)
    ∧ ((uniquePeers peers).head? = some p →
        (peers.filter (fun q => q.cn == p.cn)).getLast? = some p) := by
  refine ⟨fun h => uniquePeers_last_occurrence peers p h, fun h => ?_⟩
  exact uniquePeers_last_occurrence peers p (List.mem_of_mem_head? (Option.mem_def.mpr h))

/-- Witness for C9: of two descriptors sharing the identity "peer0", the
second one is the descriptor retained. -/
theorem C9_last_occurrence_retained_witness :
    ([peerDupA, peerDupB].filter (fun q => q.cn == peerDupB.cn)).getLast? = some peerDupB :=
  (C9_last_occurrence_retained [peerDupA, peerDupB] peerDupB).1 (by decide)

/-- Claim C10: when the identity switch to the admin user of the listening
peer fails, the listener promise is rejected with that error while the
deadline timer was never started, the hub never connected and the
transaction event never registered; with the ordering-submission promise
resolving, `Promise.all` and the final catch reject the invocation with
that same error. -/
theorem C10_identity_switch_failure_propagates (e txid : String) (tpr : Decoded)
    (r0 : OrdererResult) :
    (listenerStart (Except.error e) txid).settled = some (LResult.rejected e)
    ∧ (listenerStart (Except.error e) txid).timerStarted = false
    ∧ (listenerStart (Except.error e) txid).connectCalled = false
    ∧ (listenerStart (Except.error e) txid).registerCalled = false
    ∧ invokeAfterProposal tpr r0 (LResult.rejected e) = Except.error e :=
  ⟨rfl, rfl, rfl, rfl, rfl⟩

end FabricInvoke
